import Mathlib

/-!
Verification of the kg-diag reader / number-parser / diagnostic pipeline.

This file is a shallow embedding, in Lean 4, of the core of the `kg-diag`
Rust crate:

* `src/io/mod.rs` — `Position`, `Span`, `LexToken`;
* `src/io/reader.rs` — `consume_bom`, `MemCharReader` (manual UTF-8
  decoding, `next_char`, `peek_char(0)`, `seek`, `skip_chars`,
  `match_str`) and `MemByteReader` (`next_byte` with its incremental
  UTF-8 validator);
* `src/parse/error.rs` — `Input`, `Expected`, `NumericalErrorKind`,
  `ParseErrorDetail`;
* `src/parse/num.rs` — the notation configurations, `parse_simple_num`,
  `NumberParser::parse_number` / `parse_decimal`, `convert_number` and
  the radix reduction loops `parse_decimal` / `parse_octal` /
  `parse_binary` / `parse_hex`;
* `src/detail.rs` and `src/multi.rs` — `Severity`, the default `Detail`
  implementation, and the `Diags` collector.

Modelling conventions:

* Buffers are `List Nat` of byte values (u8) and scalar values (Rust
  `char` produced by `char::from_u32_unchecked`) are plain `Nat` code
  points, so that scalars outside the valid range — which the Rust code
  can fabricate on malformed input — are representable.
* Rust `usize`/`u32` arithmetic in the readers only increments, so `Nat`
  is exact; bit masks `b & 0x1F` etc. are written `b % 0x20` (equal for
  all byte values), and `wrapping_shl` never wraps at these widths.
* `get_unchecked` is modelled by `List.getD _ _ 0`; a separate
  definition `nextAccessedIndices` records exactly which indices the
  decoder dereferences, so out-of-bounds accesses (undefined behaviour
  in the Rust source) can be reasoned about.
* Unbounded `while` loops are modelled with an explicit fuel argument;
  every call site passes `data.length + 1`, which dominates the number
  of iterations in all runs analysed here (each iteration advances the
  byte offset by at least one).
* Machine integer targets of the converter (`impl_numerical!`) are
  modelled by their bounds `tmin ≤ 0 ≤ tmax` with checked arithmetic
  `checked tmin tmax v = some v` iff `tmin ≤ v ≤ tmax`, exactly the
  behaviour of `checked_add` / `checked_sub` / `checked_mul` on a
  two's-complement type with that range.  `from_u8` of a digit value
  (≤ 15) is the exact cast for every type the crate implements.
-/

deriving instance DecidableEq for Except

namespace KgDiag

/-! ## Position and Span (io/mod.rs) -/

structure Position where
  offset : Nat
  line : Nat
  column : Nat
deriving DecidableEq, Repr

namespace Position

def new : Position := ⟨0, 0, 0⟩

def inc_column (p : Position) : Position := { p with column := p.column + 1 }

def inc_line (p : Position) : Position := { p with line := p.line + 1, column := 0 }

/-- The derived `Ord` on `Position` (field order: offset, line, column). -/
def ltb (p q : Position) : Bool :=
  p.offset < q.offset ∨
    (p.offset = q.offset ∧ (p.line < q.line ∨ (p.line = q.line ∧ p.column < q.column)))

end Position

structure Span where
  start : Position
  /-- field `end` in the source (`end` is a Lean keyword) -/
  stop : Position
deriving DecidableEq, Repr

/-! ## UTF-8 errors raised by the readers

`io/reader.rs` constructs exactly these two variants of `IoErrorDetail`
(the revision of the enum that `reader.rs` compiles against carries a
plain byte `offset`, as the in-tree test `utf8_encoding_err_offset`
confirms). -/

inductive IoErrorDetail where
  | utf8InvalidEncoding (offset : Nat) (len : Nat)
  | utf8UnexpectedEof (offset : Nat)
deriving DecidableEq, Repr

/-! ## consume_bom and MemCharReader (io/reader.rs) -/

/-- `consume_bom`: strips the first 6 bytes when they equal
`"\u{EF}\u{BB}\u{BF}".as_bytes()`.  That Rust string literal is the three
characters U+00EF U+00BB U+00BF, whose UTF-8 encoding is the six bytes
`C3 AF C2 BB C2 BF` — not the three-byte BOM `EF BB BF`. -/
def consume_bom (input : List Nat) : List Nat :=
  if 6 ≤ input.length then
    if input.take 6 = [0xC3, 0xAF, 0xC2, 0xBB, 0xC2, 0xBF] then input.drop 6 else input
  else input

structure MemCharReader where
  data : List Nat
  pos : Position
  /-- last decoded scalar value (`c: char` in the source) -/
  c : Nat
  /-- byte length of the current scalar, `0` when none is decoded -/
  len : Nat
deriving DecidableEq, Repr

namespace MemCharReader

def new (input : List Nat) : MemCharReader :=
  { data := consume_bom input, pos := Position.new, c := 0, len := 0 }

/-- First half of `MemCharReader::next`: step past the current scalar. -/
def advance (r : MemCharReader) : MemCharReader :=
  if 0 < r.len then
    let p := { r.pos with offset := r.pos.offset + r.len }
    let p := if r.c = 10 then p.inc_line else p.inc_column
    { r with pos := p, len := 0 }
  else r

/-- `MemCharReader::next`: advance past the current scalar, then decode the
scalar at the new offset with the manual four-branch UTF-8 decoder.
`get_unchecked` is modelled by `getD _ _ 0`; the bounds tests are written
exactly as in the source (`len < i + 1`, `len < i + 2`, `len < i + 3`). -/
def next (r0 : MemCharReader) : Except IoErrorDetail MemCharReader :=
  let r := r0.advance
  let n := r.data.length
  let i := r.pos.offset
  if i = n then .ok r
  else
    let b := r.data.getD i 0
    if b < 0x80 then .ok { r with len := 1, c := b }
    else if b < 0xC0 then .error (.utf8InvalidEncoding i 1)
    else if b < 0xE0 then
      if n < i + 1 then .error (.utf8UnexpectedEof i)
      else
        let b1 := r.data.getD (i + 1) 0
        .ok { r with len := 2, c := (b % 0x20) * 64 + b1 % 0x40 }
    else if b < 0xF0 then
      if n < i + 2 then .error (.utf8UnexpectedEof i)
      else
        let b1 := r.data.getD (i + 1) 0
        let b2 := r.data.getD (i + 2) 0
        .ok { r with len := 3, c := (b % 0x10) * 4096 + (b1 % 0x40) * 64 + b2 % 0x40 }
    else if b ≤ 0xF4 then
      if n < i + 3 then .error (.utf8UnexpectedEof i)
      else
        let b1 := r.data.getD (i + 1) 0
        let b2 := r.data.getD (i + 2) 0
        let b3 := r.data.getD (i + 3) 0
        let cv := (b % 8) * 262144 + (b1 % 0x40) * 4096 + (b2 % 0x40) * 64 + b3 % 0x40
        .ok { r with len := 4, c := cv }
    else .error (.utf8InvalidEncoding i 4)

/-- The buffer indices `MemCharReader::next` dereferences (via
`get_unchecked`) when it decodes at offset `i`; mirrors the branch
structure of `next` exactly.  An entry `≥ data.length` is an
out-of-bounds read — undefined behaviour in the Rust source. -/
def nextAccessedIndices (data : List Nat) (i : Nat) : List Nat :=
  if i = data.length then []
  else
    let b := data.getD i 0
    if b < 0x80 then [i]
    else if b < 0xC0 then [i]
    else if b < 0xE0 then
      if data.length < i + 1 then [i] else [i, i + 1]
    else if b < 0xF0 then
      if data.length < i + 2 then [i] else [i, i + 1, i + 2]
    else if b ≤ 0xF4 then
      if data.length < i + 3 then [i] else [i, i + 1, i + 2, i + 3]
    else [i]

/-- `CharReader::next_char` for `MemCharReader`. -/
def next_char (r : MemCharReader) : Except IoErrorDetail (Option Nat × MemCharReader) :=
  match r.next with
  | .error e => .error e
  | .ok r' => if 0 < r'.len then .ok (some r'.c, r') else .ok (none, r')

/-- `peek_char(0)`: decode-in-place when no scalar is cached. -/
def peek_char0 (r : MemCharReader) : Except IoErrorDetail (Option Nat × MemCharReader) :=
  if r.len = 0 then r.next_char else .ok (some r.c, r)

/-- `Reader::seek` for `MemCharReader`: restore the position, reset the
cached scalar (`c = '\0'`, `len = 0`).  Always succeeds. -/
def seek (r : MemCharReader) (p : Position) : MemCharReader :=
  { r with pos := p, c := 0, len := 0 }

def skip_chars (r : MemCharReader) : Nat → Except IoErrorDetail MemCharReader
  | 0 => .ok r
  | n + 1 =>
    match r.next_char with
    | .error e => .error e
    | .ok (_, r') => r'.skip_chars n

/-- `CharReader::match_str`: byte-for-byte comparison, never consumes. -/
def match_str (r : MemCharReader) (s : List Nat) : Bool :=
  if r.data.length - r.pos.offset < s.length then false
  else decide ((r.data.drop r.pos.offset).take s.length = s)

end MemCharReader

/-! ## MemByteReader (io/reader.rs) -/

structure MemByteReader where
  data : List Nat
  pos : Position
  /-- continuation bytes the validator still expects for the current scalar -/
  left : Nat
deriving DecidableEq, Repr

namespace MemByteReader

def new (input : List Nat) : MemByteReader :=
  { data := input, pos := Position.new, left := 0 }

/-- `ByteReader::next_byte` for `MemByteReader`: return the next byte and
run the incremental UTF-8 validator.  Note that the offset is
incremented before any branch, so error offsets point one past the
offending byte, as in the source. -/
def next_byte (r0 : MemByteReader) : Except IoErrorDetail (Option Nat × MemByteReader) :=
  if r0.pos.offset < r0.data.length then
    let off := r0.pos.offset
    let b := r0.data.getD off 0
    let r := { r0 with pos := { r0.pos with offset := off + 1 } }
    if r.left = 0 then
      if b = 10 then .ok (some b, { r with left := 0, pos := r.pos.inc_line })
      else if b < 0x80 then .ok (some b, { r with left := 0, pos := r.pos.inc_column })
      else if b < 0xC0 then .error (.utf8InvalidEncoding r.pos.offset 1)
      else if b < 0xE0 then .ok (some b, { r with left := 1 })
      else if b < 0xF0 then .ok (some b, { r with left := 2 })
      else if b ≤ 0xF4 then .ok (some b, { r with left := 3 })
      else .error (.utf8InvalidEncoding r.pos.offset 3)
    else if 0xC0 ≤ b then .ok (some b, { r with left := r.left - 1 })
    else .error (.utf8InvalidEncoding r.pos.offset r.left)
  else if 0 < r0.left then .error (.utf8UnexpectedEof r0.pos.offset)
  else .ok (none, r0)

end MemByteReader

/-! ## Parse-error taxonomy (parse/error.rs)

Scalars in `Input.char` / `Expected.char` / `Expected.charRange` are code
points (`Nat`), matching the reader model. -/

inductive Input where
  | byte (b : Nat)
  | char (c : Nat)
  | custom (s : String)
deriving DecidableEq, Repr

inductive Expected where
  | byte (b : Nat)
  | byteRange (a b : Nat)
  | char (c : Nat)
  | charRange (a b : Nat)
  | custom (s : String)
  | oneOf (es : List Expected)
  | orElse (a b : Expected)

namespace Expected

/-- The derived `Ord` on `Expected`: variant index first, then fields
lexicographically (`Vec` and `Box` compare their contents). -/
def cmp : Expected → Expected → Ordering
  | .byte a, .byte b => compare a b
  | .byte _, _ => .lt
  | _, .byte _ => .gt
  | .byteRange a b, .byteRange c d => (compare a c).then (compare b d)
  | .byteRange _ _, _ => .lt
  | _, .byteRange _ _ => .gt
  | .char a, .char b => compare a b
  | .char _, _ => .lt
  | _, .char _ => .gt
  | .charRange a b, .charRange c d => (compare a c).then (compare b d)
  | .charRange _ _, _ => .lt
  | _, .charRange _ _ => .gt
  | .custom a, .custom b => compare a b
  | .custom _, _ => .lt
  | _, .custom _ => .gt
  | .oneOf a, .oneOf b => cmpList a b
  | .oneOf _, _ => .lt
  | _, .oneOf _ => .gt
  | .orElse a b, .orElse c d => (cmp a c).then (cmp b d)
where
  cmpList : List Expected → List Expected → Ordering
    | [], [] => .eq
    | [], _ :: _ => .lt
    | _ :: _, [] => .gt
    | a :: as, b :: bs => (cmp a b).then (cmpList as bs)

/-- Insertion into a `cmp`-sorted list. -/
def insertByCmp (e : Expected) : List Expected → List Expected
  | [] => [e]
  | x :: xs => if cmp e x = .lt then e :: x :: xs else x :: insertByCmp e xs

/-- Sort by `cmp` (Rust `Vec::sort`; for this structural comparator,
`cmp a b = .eq` implies `a = b`, so stability is immaterial). -/
def sortByCmp : List Expected → List Expected
  | [] => []
  | x :: xs => insertByCmp x (sortByCmp xs)

/-- `Expected::one_of`: a single element collapses, otherwise sort. -/
def one_of (elems : List Expected) : Expected :=
  if h : elems.length = 1 then elems.head (by cases elems <;> simp_all)
  else .oneOf (sortByCmp elems)

end Expected

/-- `NumericalErrorKind` (parse/error.rs).  The `f64` payload of
`Overflow` / `Underflow` is dropped: floating point is out of scope, the
integer conversion paths verified here always store `NAN` there, and the
crate's own `PartialEq` for this type ignores the payload. -/
inductive NumericalErrorKind where
  | overflow
  | underflow
  | invalid
deriving DecidableEq, Repr

inductive ParseErrorDetail where
  | io (err : IoErrorDetail)
  | unexpectedEof (pos : Position) (expected : Option Expected) (task : String)
  | unexpectedInput (pos : Position) (found : Option Input) (expected : Option Expected)
      (task : String)
  | numerical (span : Span) (kind : NumericalErrorKind)

/-! ## Severity, Detail codes, and the Diags collector
(detail.rs, parse/error.rs, io/error.rs, multi.rs) -/

inductive Severity where
  | info
  | warning
  /-- recoverable error -/
  | error
  /-- non-recoverable error -/
  | failure
  | critical
deriving DecidableEq, Repr

namespace Severity

/-- Rank realising the derived total order `Info < Warning < Error <
Failure < Critical`. -/
def rank : Severity → Nat
  | .info => 0
  | .warning => 1
  | .error => 2
  | .failure => 3
  | .critical => 4

/-- `Severity::is_error`: `*self >= Severity::Error`. -/
def is_error (s : Severity) : Bool := 2 ≤ s.rank

/-- `Severity::is_recoverable`: `*self < Severity::Failure`. -/
def is_recoverable (s : Severity) : Bool := s.rank < 3

/-- `std::cmp::max` under the derived order (returns the second argument
on equality, which coincides for a total order on an enum). -/
def smax (a b : Severity) : Severity := if a.rank ≤ b.rank then b else a

end Severity

/-- `IoErrorDetail::code` restricted to the variants the readers raise. -/
def IoErrorDetail.code : IoErrorDetail → Nat
  | .utf8InvalidEncoding _ _ => 21
  | .utf8UnexpectedEof _ => 21

namespace ParseErrorDetail

/-- `impl Detail for ParseErrorDetail` overrides only `code`. -/
def code : ParseErrorDetail → Nat
  | .io err => err.code
  | .unexpectedEof _ _ _ => 40
  | .unexpectedInput _ _ _ _ => 41
  | .numerical _ _ => 42

/-- `severity` is NOT overridden for `ParseErrorDetail`, so the
specialization default in detail.rs applies: `Severity::Failure`. -/
def severity (_ : ParseErrorDetail) : Severity := .failure

end ParseErrorDetail

/-- The `Errors` sentinel (multi.rs); the optional stacktrace is an
opaque handle and carries no observable state here. -/
structure Errors where
  severity : Severity
deriving DecidableEq, Repr

/-- The `Diags` collector (multi.rs), with `ParseErrorDetail` diags. -/
structure Diags where
  diags : List ParseErrorDetail
  max_severity : Severity

namespace Diags

def new : Diags := ⟨[], .info⟩

/-- `Diags::add_diag`: push, raise the watermark, and fail with the
`Errors` sentinel when the severity is non-recoverable. -/
def add_diag (ds : Diags) (d : ParseErrorDetail) : Diags × Except Errors Unit :=
  let ms := Severity.smax ds.max_severity d.severity
  let recover := d.severity.is_recoverable
  let ds' : Diags := ⟨ds.diags ++ [d], ms⟩
  (ds', if recover then .ok () else .error ⟨ms⟩)

/-- `Diags::result`. -/
def result (ds : Diags) : Except Errors Unit :=
  if ds.max_severity.is_error then .error ⟨ds.max_severity⟩ else .ok ()

end Diags

/-! ## Number tokens (parse/num.rs, io/mod.rs) -/

/-- `PARSE_TASK_NAME` (the typo "paring" is the source's). -/
def PARSE_TASK_NAME : String := "paring a number literal"

inductive Notation where
  | decimal
  | float
  | exponent
  | octal
  | hex
  | binary
deriving DecidableEq, Repr

def Notation.radix : Notation → Nat
  | .decimal | .float | .exponent => 10
  | .hex => 16
  | .octal => 8
  | .binary => 2

inductive Sign where
  | none
  | minus
  | plus
deriving DecidableEq, Repr

def Sign.len : Sign → Nat
  | .none => 0
  | _ => 1

/-- `Number` term; the field `notation` of the source is called `nota`
here (`notation` cannot be used as a Lean identifier). -/
structure Number where
  sign : Sign
  nota : Notation
deriving DecidableEq, Repr

def Number.new (sign : Sign) (nota : Notation) : Number := ⟨sign, nota⟩

structure LexToken where
  term : Number
  span : Span
deriving DecidableEq, Repr

def LexToken.new (term : Number) (fromPos toPos : Position) : LexToken :=
  ⟨term, ⟨fromPos, toPos⟩⟩

inductive Case where
  | any
  | upper
  | lower
deriving DecidableEq, Repr

/-! ## Notation configurations (parse/num.rs)

Field `case` of the source is called `cas` (`case` is a Lean keyword)
and field `prefix` is called `pfx` (prefix bytes). -/

structure DecimalConfig where
  enabled : Bool
  allow_minus : Bool
  allow_plus : Bool
  allow_underscores : Bool
  allow_float : Bool
  allow_exponent : Bool
  cas : Case
deriving DecidableEq, Repr

def DecimalConfig.new : DecimalConfig :=
  ⟨true, true, true, true, true, true, .any⟩

structure HexConfig where
  enabled : Bool
  allow_minus : Bool
  allow_plus : Bool
  allow_underscores : Bool
  pfx : List Nat
  cas : Case
deriving DecidableEq, Repr

/-- default prefix `"0x"` = bytes `[48, 120]`. -/
def HexConfig.new : HexConfig := ⟨true, true, true, true, [48, 120], .any⟩

structure OctalConfig where
  enabled : Bool
  allow_minus : Bool
  allow_plus : Bool
  allow_underscores : Bool
  pfx : List Nat
deriving DecidableEq, Repr

/-- default prefix `"0o"` = bytes `[48, 111]`. -/
def OctalConfig.new : OctalConfig := ⟨true, true, true, true, [48, 111]⟩

structure BinaryConfig where
  enabled : Bool
  allow_minus : Bool
  allow_plus : Bool
  allow_underscores : Bool
  pfx : List Nat
deriving DecidableEq, Repr

/-- default prefix `"0b"` = bytes `[48, 98]`. -/
def BinaryConfig.new : BinaryConfig := ⟨true, true, true, true, [48, 98]⟩

def DecimalConfig.is_digit (_ : DecimalConfig) (c : Nat) : Bool :=
  decide (48 ≤ c ∧ c ≤ 57)

def HexConfig.is_digit (h : HexConfig) (c : Nat) : Bool :=
  decide (48 ≤ c ∧ c ≤ 57) ||
    (match h.cas with
     | .any => decide (65 ≤ c ∧ c ≤ 70) || decide (97 ≤ c ∧ c ≤ 102)
     | .upper => decide (65 ≤ c ∧ c ≤ 70)
     | .lower => decide (97 ≤ c ∧ c ≤ 102))

def OctalConfig.is_digit (_ : OctalConfig) (c : Nat) : Bool :=
  decide (48 ≤ c ∧ c ≤ 55)

def BinaryConfig.is_digit (_ : BinaryConfig) (c : Nat) : Bool :=
  c = 48 || c = 49

def HexConfig.get_expected_digit (h : HexConfig) : Expected :=
  match h.cas with
  | .any => .oneOf [.charRange 48 57, .charRange 65 70, .charRange 97 102]
  | .lower => .oneOf [.charRange 48 57, .charRange 97 102]
  | .upper => .oneOf [.charRange 48 57, .charRange 65 70]

/-- The `NotationConfig` trait impl of a configuration, reified as a
record of the methods `parse_simple_num` and `is_at_start` use. -/
structure NotationConfigV where
  is_enabled : Bool
  allow_plus : Bool
  allow_minus : Bool
  allow_underscores : Bool
  pfx : List Nat
  is_digit : Nat → Bool
  getNotation : Notation
  getExpectedDigit : Expected
  taskName : String

def HexConfig.vtable (h : HexConfig) : NotationConfigV :=
  ⟨h.enabled, h.allow_plus, h.allow_minus, h.allow_underscores, h.pfx,
   h.is_digit, .hex, h.get_expected_digit, "parsing a hexadecimal number literal"⟩

def OctalConfig.vtable (o : OctalConfig) : NotationConfigV :=
  ⟨o.enabled, o.allow_plus, o.allow_minus, o.allow_underscores, o.pfx,
   o.is_digit, .octal, .charRange 48 55, "parsing an octal number literal"⟩

def BinaryConfig.vtable (b : BinaryConfig) : NotationConfigV :=
  ⟨b.enabled, b.allow_plus, b.allow_minus, b.allow_underscores, b.pfx,
   b.is_digit, .binary, .charRange 48 49, "parsing a binary number literal"⟩

/-! ## is_at_start (parse/num.rs) -/

/-- The inner helper `is_at_prefix_or_digit` of the default
`NotationConfig::is_at_start`. -/
def is_at_prefix_or_digit (n : NotationConfigV) (r : MemCharReader) :
    Except IoErrorDetail (Bool × MemCharReader) :=
  if n.pfx.isEmpty then
    match r.peek_char0 with
    | .error e => .error e
    | .ok (some c, r') => .ok (n.is_digit c, r')
    | .ok (none, r') => .ok (false, r')
  else .ok (r.match_str n.pfx, r)

/-- Default `NotationConfig::is_at_start` (used by hex, octal, binary):
peek, tentatively step over a permitted sign, test prefix/digit, and
seek back. -/
def NotationConfigV.is_at_start (n : NotationConfigV) (r : MemCharReader) :
    Except IoErrorDetail (Bool × MemCharReader) :=
  if n.is_enabled then
    match r.peek_char0 with
    | .error e => .error e
    | .ok (some c, r') =>
      if (c = 45 && n.allow_minus) || (c = 43 && n.allow_plus) then
        let p := r'.pos
        match r'.skip_chars 1 with
        | .error e => .error e
        | .ok r2 =>
          match is_at_prefix_or_digit n r2 with
          | .error e => .error e
          | .ok (res, r3) => .ok (res, r3.seek p)
      else is_at_prefix_or_digit n r'
    | .ok (none, r') => .ok (false, r')
  else .ok (false, r)

/-- `DecimalConfig`'s own `is_at_start` override: a permitted sign alone
already answers true. -/
def DecimalConfig.is_at_start (d : DecimalConfig) (r : MemCharReader) :
    Except IoErrorDetail (Bool × MemCharReader) :=
  if d.enabled then
    match r.peek_char0 with
    | .error e => .error e
    | .ok (some c, r') =>
      if (c = 45 && d.allow_minus) || (c = 43 && d.allow_plus) then .ok (true, r')
      else .ok (d.is_digit c, r')
    | .ok (none, r') => .ok (false, r')
  else .ok (false, r)

/-! ## parse_simple_num (parse/num.rs) -/

/-- The `skip_while(|c| n.is_digit(c))` loop (no underscores). -/
def simple_scan_plain (isDig : Nat → Bool) :
    Nat → MemCharReader → Except IoErrorDetail MemCharReader
  | 0, r => .ok r
  | fuel + 1, r =>
    match r.peek_char0 with
    | .error e => .error e
    | .ok (none, r') => .ok r'
    | .ok (some c, r') =>
      if isDig c then
        match r'.next_char with
        | .error e => .error e
        | .ok (_, r'') => simple_scan_plain isDig fuel r''
      else .ok r'

/-- The underscore-aware digit loop of `parse_simple_num`: an underscore
breaks the scan only while no digit has been seen yet (`digit` is never
reset, so later underscores — even consecutive or trailing ones — are
consumed). -/
def simple_scan_underscores (isDig : Nat → Bool) :
    Nat → Bool → MemCharReader → Except IoErrorDetail MemCharReader
  | 0, _, r => .ok r
  | fuel + 1, digit, r =>
    match r.peek_char0 with
    | .error e => .error e
    | .ok (none, r') => .ok r'
    | .ok (some c, r') =>
      if c = 95 then
        if digit = false then .ok r'
        else
          match r'.next_char with
          | .error e => .error e
          | .ok (_, r'') => simple_scan_underscores isDig fuel digit r''
      else if isDig c then
        match r'.next_char with
        | .error e => .error e
        | .ok (_, r'') => simple_scan_underscores isDig fuel true r''
      else .ok r'

def parse_simple_num (n : NotationConfigV) (sign : Sign) (r : MemCharReader) :
    Except ParseErrorDetail (LexToken × MemCharReader) :=
  let p1 := r.pos
  let scanBlock : Except IoErrorDetail (MemCharReader × Position) :=
    if sign = Sign.none ∨ (sign = Sign.minus ∧ n.allow_minus = true) ∨
        (sign = Sign.plus ∧ n.allow_plus = true) then
      match (if sign ≠ Sign.none then r.skip_chars 1 else .ok r) with
      | .error e => .error e
      | .ok r =>
        match r.skip_chars n.pfx.length with
        | .error e => .error e
        | .ok r =>
          let p := r.pos
          match (if n.allow_underscores = false then
                   simple_scan_plain n.is_digit (r.data.length + 1) r
                 else
                   simple_scan_underscores n.is_digit (r.data.length + 1) false r) with
          | .error e => .error e
          | .ok r => .ok (r, p)
    else .ok (r, p1)
  match scanBlock with
  | .error e => .error (.io e)
  | .ok (r, p) =>
    let p2 := r.pos
    if Position.ltb p p2 then
      .ok (LexToken.new (Number.new sign n.getNotation) p1 p2, r)
    else
      match r.peek_char0 with
      | .error e => .error (.io e)
      | .ok (some c, _) =>
        .error (.unexpectedInput p2 (some (.char c)) (some n.getExpectedDigit) n.taskName)
      | .ok (none, _) =>
        .error (.unexpectedEof p2 (some n.getExpectedDigit) n.taskName)

/-! ## NumberParser (parse/num.rs) -/

structure NumberParser where
  decimal : DecimalConfig
  hex : HexConfig
  octal : OctalConfig
  binary : BinaryConfig

def NumberParser.new : NumberParser :=
  ⟨DecimalConfig.new, HexConfig.new, OctalConfig.new, BinaryConfig.new⟩

/-- The scanning `while` loop of `NumberParser::parse_decimal`.  `last`
is the most recent significant character class (a scalar value: 32 `' '`,
48 `'0'`, 46 `'.'`, 101 `'e'`, 45 `'-'`), `nota` the current notation
guess.  The `unreachable!()` arm of the source cannot be reached (a
digit is only processed with `last ∈ {32, 46, 101, 45, 48}`); it is
modelled as keeping `nota`. -/
def decScan (d : DecimalConfig) :
    Nat → MemCharReader → Option Notation → Nat →
    Except IoErrorDetail (MemCharReader × Option Notation × Nat)
  | 0, r, nota, last => .ok (r, nota, last)
  | fuel + 1, r, nota, last =>
    match r.peek_char0 with
    | .error e => .error e
    | .ok (none, r') => .ok (r', nota, last)
    | .ok (some c, r') =>
      let step : Option (Option Notation × Nat) :=
        if d.is_digit c then
          let nota' :=
            if last = 32 then some .decimal
            else if last = 46 then some .float
            else if last = 101 ∨ last = 45 then some .exponent
            else nota
          some (nota', 48)
        else if c = 95 ∧ d.allow_underscores = true ∧
            (last = 48 ∨ last = 101 ∨ last = 45) then
          some (nota, last)
        else if c = 46 ∧ d.allow_float = true ∧ last = 48 ∧
            nota = some .decimal then
          some (nota, 46)
        else if ((c = 101 ∧ d.cas ≠ .upper) ∨ (c = 69 ∧ d.cas ≠ .lower)) ∧
            d.allow_exponent = true ∧ last = 48 ∧ nota ≠ some .exponent then
          some (nota, 101)
        else if (c = 45 ∨ c = 43) ∧ last = 101 then
          some (nota, 45)
        else none
      match step with
      | none => .ok (r', nota, last)
      | some (nota', last') =>
        match r'.next_char with
        | .error e => .error e
        | .ok (_, r'') => decScan d fuel r'' nota' last'

/-- `NumberParser::parse_decimal`. -/
def NumberParser.parse_decimal (np : NumberParser) (sign : Sign) (r : MemCharReader) :
    Except ParseErrorDetail (LexToken × MemCharReader) :=
  let d := np.decimal
  let p1 := r.pos
  let scanBlock : Except IoErrorDetail (MemCharReader × Option Notation × Nat) :=
    if sign = Sign.none ∨ (sign = Sign.minus ∧ d.allow_minus = true) ∨
        (sign = Sign.plus ∧ d.allow_plus = true) then
      match (if sign ≠ Sign.none then r.skip_chars 1 else .ok r) with
      | .error e => .error e
      | .ok r => decScan d (r.data.length + 1) r none 32
    else .ok (r, none, 32)
  match scanBlock with
  | .error e => .error (.io e)
  | .ok (r, nota, last) =>
    let p2 := r.pos
    let errPath : Except ParseErrorDetail (LexToken × MemCharReader) :=
      let expected : Expected :=
        if last = 32 ∨ last = 46 then
          Expected.one_of
            ((if sign = Sign.none then
                (if d.allow_minus then [Expected.char 45] else []) ++
                  (if d.allow_plus then [Expected.char 43] else [])
              else []) ++ [Expected.charRange 48 57])
        else if last = 101 then
          if d.allow_underscores then
            Expected.one_of [.charRange 48 57, .char 95, .char 45, .char 43]
          else Expected.one_of [.charRange 48 57, .char 45, .char 43]
        else if last = 45 then
          if d.allow_underscores then
            Expected.one_of [.charRange 48 57, .char 95]
          else Expected.charRange 48 57
        -- `unreachable!()` in the source; `last` is one of the above here
        else Expected.custom "unreachable"
      match r.peek_char0 with
      | .error e => .error (.io e)
      | .ok (some c, _) =>
        .error (.unexpectedInput p2 (some (.char c)) (some expected)
          "parsing a decimal number literal")
      | .ok (none, _) =>
        .error (.unexpectedEof p2 (some expected) "parsing a decimal number literal")
    match nota with
    | some nt =>
      if last = 48 then
        .ok (LexToken.new (Number.new sign nt) p1 p2, r)
      else if last = 46 then
        let p : Position := { p2 with offset := p2.offset - 1, column := p2.column - 1 }
        .ok (LexToken.new (Number.new sign nt) p1 p, r.seek p)
      else errPath
    | none => errPath

def NumberParser.parse_hex (np : NumberParser) (sign : Sign) (r : MemCharReader) :
    Except ParseErrorDetail (LexToken × MemCharReader) :=
  parse_simple_num np.hex.vtable sign r

def NumberParser.parse_octal (np : NumberParser) (sign : Sign) (r : MemCharReader) :
    Except ParseErrorDetail (LexToken × MemCharReader) :=
  parse_simple_num np.octal.vtable sign r

def NumberParser.parse_binary (np : NumberParser) (sign : Sign) (r : MemCharReader) :
    Except ParseErrorDetail (LexToken × MemCharReader) :=
  parse_simple_num np.binary.vtable sign r

/-- `NumberParser::parse_number`: sign peek, then notation dispatch in
the fixed order hex, octal, binary, decimal (reader errors from `?`
become `ParseErrorDetail::Io`). -/
def NumberParser.parse_number (np : NumberParser) (r : MemCharReader) :
    Except ParseErrorDetail (LexToken × MemCharReader) :=
  match r.peek_char0 with
  | .error e => .error (.io e)
  | .ok (none, r) => .error (.unexpectedEof r.pos none PARSE_TASK_NAME)
  | .ok (some c, r) =>
    let sign := if c = 45 then Sign.minus else if c = 43 then Sign.plus else Sign.none
    match np.hex.vtable.is_at_start r with
    | .error e => .error (.io e)
    | .ok (hx, r) =>
      if hx then np.parse_hex sign r
      else
        match np.octal.vtable.is_at_start r with
        | .error e => .error (.io e)
        | .ok (oct, r) =>
          if oct then np.parse_octal sign r
          else
            match np.binary.vtable.is_at_start r with
            | .error e => .error (.io e)
            | .ok (bin, r) =>
              if bin then np.parse_binary sign r
              else
                match np.decimal.is_at_start r with
                | .error e => .error (.io e)
                | .ok (dec, r) =>
                  if dec then np.parse_decimal sign r
                  else
                    match r.peek_char0 with
                    | .error e => .error (.io e)
                    | .ok (some c2, r) =>
                      .error (.unexpectedInput r.pos (some (.char c2)) none PARSE_TASK_NAME)
                    | .ok (none, r) =>
                      .error (.unexpectedEof r.pos none PARSE_TASK_NAME)

/-! ## Numeric conversion (parse/num.rs)

An integer target type `N` of `impl_numerical!` is modelled by its
bounds `tmin ≤ 0 ≤ tmax`; `checked_add`/`checked_sub`/`checked_mul`
return the exact result iff it lies in `[tmin, tmax]`.  `from_u8` is an
exact cast for every type the crate instantiates (digit values are at
most 15 and every instantiated type holds 0..=127). -/

def checked (tmin tmax v : Int) : Option Int :=
  if tmin ≤ v ∧ v ≤ tmax then some v else none

/-- `digit_dec`: `d - b'0'` (u8 arithmetic; callers only pass ASCII
digit bytes, for which this never wraps). -/
def digit_dec (d : Nat) : Int := (d : Int) - 48

/-- `digit_hex`: `0-9 A-F a-f` mapped to `0..=15`, testing `d >= b'a'`
then `d >= b'A'` as in the source. -/
def digit_hex (d : Nat) : Int :=
  if 97 ≤ d then (d : Int) - 97 + 10
  else if 65 ≤ d then (d : Int) - 65 + 10
  else (d : Int) - 48

/-- The non-negative reduction loop shared by the bodies of
`parse_decimal`/`parse_octal`/`parse_binary`/`parse_hex` (they differ
only in the multiplier and the digit decoder): skip `'_'`, multiply,
add, fail with `Overflow` on any failed checked step. -/
def convertLoopPos (tmin tmax mul : Int) (dig : Nat → Int) :
    Int → List Nat → Except NumericalErrorKind Int
  | n, [] => .ok n
  | n, d :: s =>
    if d = 95 then convertLoopPos tmin tmax mul dig n s
    else
      match checked tmin tmax (n * mul) with
      | none => .error .overflow
      | some a =>
        match checked tmin tmax (a + dig d) with
        | none => .error .overflow
        | some a' => convertLoopPos tmin tmax mul dig a' s

/-- The minus-sign reduction loop: multiply then **subtract** the digit
(so the most negative value stays reachable), failing with `Underflow`. -/
def convertLoopNeg (tmin tmax mul : Int) (dig : Nat → Int) :
    Int → List Nat → Except NumericalErrorKind Int
  | n, [] => .ok n
  | n, d :: s =>
    if d = 95 then convertLoopNeg tmin tmax mul dig n s
    else
      match checked tmin tmax (n * mul) with
      | none => .error .underflow
      | some a =>
        match checked tmin tmax (a - dig d) with
        | none => .error .underflow
        | some a' => convertLoopNeg tmin tmax mul dig a' s

def parse_decimal (tmin tmax : Int) (sign : Sign) (s : List Nat) :
    Except NumericalErrorKind Int :=
  if sign ≠ Sign.minus then convertLoopPos tmin tmax 10 digit_dec 0 s
  else convertLoopNeg tmin tmax 10 digit_dec 0 s

def parse_octal (tmin tmax : Int) (sign : Sign) (s : List Nat) :
    Except NumericalErrorKind Int :=
  if sign ≠ Sign.minus then convertLoopPos tmin tmax 8 digit_dec 0 s
  else convertLoopNeg tmin tmax 8 digit_dec 0 s

def parse_binary (tmin tmax : Int) (sign : Sign) (s : List Nat) :
    Except NumericalErrorKind Int :=
  if sign ≠ Sign.minus then convertLoopPos tmin tmax 2 digit_dec 0 s
  else convertLoopNeg tmin tmax 2 digit_dec 0 s

def parse_hex (tmin tmax : Int) (sign : Sign) (s : List Nat) :
    Except NumericalErrorKind Int :=
  if sign ≠ Sign.minus then convertLoopPos tmin tmax 16 digit_hex 0 s
  else convertLoopNeg tmin tmax 16 digit_hex 0 s

/-- `Reader::slice(start, end)`: the bytes `data[start..end]`. -/
def sliceBytes (data : List Nat) (start stop : Nat) : List Nat :=
  (data.take stop).drop start

/-- `NumberParser::convert_number`.  `from_float_str` abstracts
`N::from_float_str` (platform float-from-string; floating point is out
of scope here), applied after the underscore-stripping pass through the
parser's `buffer` when `decimal.allow_underscores` is set. -/
def NumberParser.convert_number (np : NumberParser)
    (from_float_str : List Nat → Except NumericalErrorKind Int)
    (tmin tmax : Int) (data : List Nat) (span : Span) (sign : Sign) (nt : Notation) :
    Except ParseErrorDetail Int :=
  let res : Except NumericalErrorKind Int :=
    match nt with
    | .decimal =>
      KgDiag.parse_decimal tmin tmax sign
        (sliceBytes data (span.start.offset + sign.len) span.stop.offset)
    | .hex =>
      KgDiag.parse_hex tmin tmax sign
        (sliceBytes data (span.start.offset + sign.len + np.hex.pfx.length) span.stop.offset)
    | .octal =>
      KgDiag.parse_octal tmin tmax sign
        (sliceBytes data (span.start.offset + sign.len + np.octal.pfx.length) span.stop.offset)
    | .binary =>
      KgDiag.parse_binary tmin tmax sign
        (sliceBytes data (span.start.offset + sign.len + np.binary.pfx.length) span.stop.offset)
    | .float | .exponent =>
      let s := sliceBytes data span.start.offset span.stop.offset
      if np.decimal.allow_underscores then from_float_str (s.filter (fun c => c ≠ 95))
      else from_float_str s
  match res with
  | .ok v => .ok v
  | .error k => .error (.numerical span k)

/-! ## Specification-side digit semantics

Independent mathematical reading of a digit string, used to state what
the converter *should* produce. -/

/-- Mathematical value of an ASCII digit byte (`0-9`, `A-F`, `a-f`). -/
def byteDigitVal (d : Nat) : Int :=
  if 48 ≤ d ∧ d ≤ 57 then (d : Int) - 48
  else if 65 ≤ d ∧ d ≤ 70 then (d : Int) - 55
  else if 97 ≤ d ∧ d ≤ 102 then (d : Int) - 87
  else 0

/-- Left fold `n ↦ n * mul + dig d` over a digit string, skipping
underscores. -/
def accVal (mul : Int) (dig : Nat → Int) (n : Int) : List Nat → Int
  | [] => n
  | d :: s => if d = 95 then accVal mul dig n s else accVal mul dig (n * mul + dig d) s

/-- Base-`radix` value of a digit string, underscores skipped, digits
read by their standard ASCII values. -/
def numValue (radix : Int) (s : List Nat) : Int :=
  accVal radix byteDigitVal 0 s

/-- The signed mathematical value a token's digit string denotes. -/
def tokenValue (radix : Int) (sign : Sign) (s : List Nat) : Int :=
  if sign = Sign.minus then -numValue radix s else numValue radix s

/-- The digit bytes a notation's recogniser accepts (default `Case::Any`
for hex), plus `'_'`. -/
def digitOk : Notation → Nat → Prop
  | .decimal, d => d = 95 ∨ (48 ≤ d ∧ d ≤ 57)
  | .octal, d => d = 95 ∨ (48 ≤ d ∧ d ≤ 55)
  | .binary, d => d = 95 ∨ d = 48 ∨ d = 49
  | .hex, d => d = 95 ∨ (48 ≤ d ∧ d ≤ 57) ∨ (65 ≤ d ∧ d ≤ 70) ∨ (97 ≤ d ∧ d ≤ 102)
  | _, _ => False

instance (nt : Notation) (d : Nat) : Decidable (digitOk nt d) := by
  cases nt <;> simp only [digitOk] <;> infer_instance

/-- The digit bytes of a token as `convert_number` slices them out. -/
def tokenDigits (np : NumberParser) (data : List Nat) (span : Span)
    (sign : Sign) (nt : Notation) : List Nat :=
  match nt with
  | .hex => sliceBytes data (span.start.offset + sign.len + np.hex.pfx.length) span.stop.offset
  | .octal => sliceBytes data (span.start.offset + sign.len + np.octal.pfx.length) span.stop.offset
  | .binary => sliceBytes data (span.start.offset + sign.len + np.binary.pfx.length) span.stop.offset
  | _ => sliceBytes data (span.start.offset + sign.len) span.stop.offset

/-! ## Conversion correctness lemmas -/

section ConvertLemmas

variable {tmin tmax mul : Int} {dig : Nat → Int}

lemma checked_pos (v : Int) (h1 : tmin ≤ v) (h2 : v ≤ tmax) :
    checked tmin tmax v = some v := by
  simp [checked, h1, h2]

lemma checked_neg_hi (v : Int) (h : tmax < v) : checked tmin tmax v = none := by
  simp only [checked, ite_eq_right_iff]
  intro hc
  omega

lemma checked_neg_lo (v : Int) (h : v < tmin) : checked tmin tmax v = none := by
  simp only [checked, ite_eq_right_iff]
  intro hc
  omega

lemma accVal_ge (hm : 1 ≤ mul) :
    ∀ (s : List Nat), (∀ d ∈ s, d ≠ 95 → 0 ≤ dig d) →
      ∀ n : Int, 0 ≤ n → n ≤ accVal mul dig n s := by
  intro s
  induction s with
  | nil => intro _ n _; simp [accVal]
  | cons d s ih =>
    intro hd n hn
    by_cases h95 : d = 95
    · simpa [accVal, h95] using ih (fun x hx h => hd x (List.mem_cons_of_mem _ hx) h) n hn
    · have hdg : 0 ≤ dig d := hd d (List.mem_cons_self _ _) h95
      have h1 : n ≤ n * mul + dig d := by nlinarith
      have h2 : (0 : Int) ≤ n * mul + dig d := by nlinarith
      have h3 := ih (fun x hx h => hd x (List.mem_cons_of_mem _ hx) h) _ h2
      simp only [accVal, if_neg h95]
      omega

lemma convertLoopPos_eq (hm : 1 ≤ mul) (hmin : tmin ≤ 0) :
    ∀ (s : List Nat), (∀ d ∈ s, d ≠ 95 → 0 ≤ dig d) →
      ∀ n : Int, 0 ≤ n → n ≤ tmax →
      convertLoopPos tmin tmax mul dig n s =
        if accVal mul dig n s ≤ tmax then .ok (accVal mul dig n s)
        else .error .overflow := by
  intro s
  induction s with
  | nil => intro _ n _ hle; simp [convertLoopPos, accVal, hle]
  | cons d s ih =>
    intro hd n hn hub
    have hd' : ∀ x ∈ s, x ≠ 95 → 0 ≤ dig x :=
      fun x hx h => hd x (List.mem_cons_of_mem _ hx) h
    by_cases h95 : d = 95
    · simp only [convertLoopPos, accVal, if_pos h95]
      exact ih hd' n hn hub
    · have hdg : 0 ≤ dig d := hd d (List.mem_cons_self _ _) h95
      have hmul0 : (0 : Int) ≤ n * mul := by nlinarith
      have hstep : (0 : Int) ≤ n * mul + dig d := by nlinarith
      have hacc : n * mul + dig d ≤ accVal mul dig (n * mul + dig d) s :=
        accVal_ge hm s hd' _ hstep
      simp only [convertLoopPos, if_neg h95, accVal]
      split
      next heq =>
        -- `checked (n * mul)` failed: only possible above `tmax`
        rw [checked] at heq
        split_ifs at heq with hc
        rw [if_neg (by omega)]
      next a heq =>
        rw [checked] at heq
        split_ifs at heq with hc
        cases heq
        split
        next heq2 =>
          rw [checked] at heq2
          split_ifs at heq2 with hc2
          rw [if_neg (by omega)]
        next a' heq2 =>
          rw [checked] at heq2
          split_ifs at heq2 with hc2
          cases heq2
          exact ih hd' _ hstep hc2.2

lemma convertLoopNeg_eq (hm : 1 ≤ mul) (hmax : 0 ≤ tmax) :
    ∀ (s : List Nat), (∀ d ∈ s, d ≠ 95 → 0 ≤ dig d) →
      ∀ n : Int, n ≤ 0 → tmin ≤ n →
      convertLoopNeg tmin tmax mul dig n s =
        if tmin ≤ -accVal mul dig (-n) s then .ok (-accVal mul dig (-n) s)
        else .error .underflow := by
  intro s
  induction s with
  | nil => intro _ n _ hlb; simp [convertLoopNeg, accVal, hlb]
  | cons d s ih =>
    intro hd n hn hlb
    have hd' : ∀ x ∈ s, x ≠ 95 → 0 ≤ dig x :=
      fun x hx h => hd x (List.mem_cons_of_mem _ hx) h
    by_cases h95 : d = 95
    · simp only [convertLoopNeg, accVal, if_pos h95]
      exact ih hd' n hn hlb
    · have hdg : 0 ≤ dig d := hd d (List.mem_cons_self _ _) h95
      have hmul0 : n * mul ≤ 0 := by nlinarith
      have hstep : n * mul - dig d ≤ 0 := by nlinarith
      have hneg : -n * mul + dig d = -(n * mul - dig d) := by ring
      have hacc : -(n * mul - dig d) ≤ accVal mul dig (-(n * mul - dig d)) s :=
        accVal_ge hm s hd' _ (by omega)
      simp only [convertLoopNeg, if_neg h95, accVal, hneg]
      split
      next heq =>
        -- `checked (n * mul)` failed: only possible below `tmin`
        rw [checked] at heq
        split_ifs at heq with hc
        rw [if_neg (by omega)]
      next a heq =>
        rw [checked] at heq
        split_ifs at heq with hc
        cases heq
        split
        next heq2 =>
          rw [checked] at heq2
          split_ifs at heq2 with hc2
          rw [if_neg (by omega)]
        next a' heq2 =>
          rw [checked] at heq2
          split_ifs at heq2 with hc2
          cases heq2
          exact ih hd' _ hstep hc2.1

lemma accVal_congr :
    ∀ (s : List Nat), (∀ d ∈ s, d ≠ 95 → dig d = byteDigitVal d) →
      ∀ n : Int, accVal mul dig n s = accVal mul byteDigitVal n s := by
  intro s
  induction s with
  | nil => intro _ n; rfl
  | cons d s ih =>
    intro hdig n
    by_cases h95 : d = 95
    · simp only [accVal, if_pos h95]
      exact ih (fun x hx h => hdig x (List.mem_cons_of_mem _ hx) h) n
    · simp only [accVal, if_neg h95, hdig d (List.mem_cons_self _ _) h95]
      exact ih (fun x hx h => hdig x (List.mem_cons_of_mem _ hx) h) _

lemma byteDigitVal_nonneg (d : Nat) : 0 ≤ byteDigitVal d := by
  unfold byteDigitVal
  split_ifs <;> omega

lemma numValue_nonneg (radix : Int) (s : List Nat) (hr : 1 ≤ radix) :
    0 ≤ numValue radix s :=
  accVal_ge hr s (fun d _ _ => byteDigitVal_nonneg d) 0 le_rfl

lemma digit_dec_spec {d : Nat} (h : 48 ≤ d ∧ d ≤ 57) :
    0 ≤ digit_dec d ∧ digit_dec d = byteDigitVal d := by
  unfold digit_dec byteDigitVal
  split_ifs
  omega

lemma digit_hex_spec {d : Nat}
    (h : (48 ≤ d ∧ d ≤ 57) ∨ (65 ≤ d ∧ d ≤ 70) ∨ (97 ≤ d ∧ d ≤ 102)) :
    0 ≤ digit_hex d ∧ digit_hex d = byteDigitVal d := by
  unfold digit_hex byteDigitVal
  split_ifs <;> omega

/-- Characterisation of the sign-dispatching reduction shared by the
four numeric `parse_*` functions. -/
lemma radixParse_eq (hm : 1 ≤ mul) (hmin : tmin ≤ 0) (hmax : 0 ≤ tmax)
    (sign : Sign) (s : List Nat)
    (hd : ∀ d ∈ s, d ≠ 95 → 0 ≤ dig d ∧ dig d = byteDigitVal d) :
    (if sign ≠ Sign.minus then convertLoopPos tmin tmax mul dig 0 s
     else convertLoopNeg tmin tmax mul dig 0 s) =
      if tokenValue mul sign s < tmin then .error .underflow
      else if tmax < tokenValue mul sign s then .error .overflow
      else .ok (tokenValue mul sign s) := by
  have hd0 : ∀ d ∈ s, d ≠ 95 → 0 ≤ dig d := fun d hds h => (hd d hds h).1
  have hdv : ∀ d ∈ s, d ≠ 95 → dig d = byteDigitVal d := fun d hds h => (hd d hds h).2
  have hcongr := @accVal_congr mul dig s hdv 0
  have hnn : 0 ≤ numValue mul s := numValue_nonneg mul s hm
  have hnn' : 0 ≤ accVal mul byteDigitVal 0 s := by unfold numValue at hnn; exact hnn
  by_cases hs : sign = Sign.minus
  · subst hs
    rw [if_neg (fun h => h rfl)]
    rw [convertLoopNeg_eq hm hmax s hd0 0 le_rfl hmin]
    rw [show (-(0 : Int)) = 0 by ring, hcongr]
    have htv : tokenValue mul Sign.minus s = -accVal mul byteDigitVal 0 s := by
      simp [tokenValue, numValue]
    rw [htv]
    by_cases hA : tmin ≤ -accVal mul byteDigitVal 0 s
    · rw [if_pos hA, if_neg (by omega), if_neg (by omega)]
    · rw [if_neg hA, if_pos (by omega)]
  · rw [if_pos hs]
    rw [convertLoopPos_eq hm hmin s hd0 0 le_rfl hmax, hcongr]
    have htv : tokenValue mul sign s = accVal mul byteDigitVal 0 s := by
      simp [tokenValue, hs, numValue]
    rw [htv]
    by_cases hA : accVal mul byteDigitVal 0 s ≤ tmax
    · rw [if_pos hA, if_neg (by omega), if_neg (by omega)]
    · rw [if_neg hA, if_neg (by omega), if_pos (by omega)]

/-- Characterisation of `convert_number` for the four integer notations:
the exact token value is produced iff it lies in `[tmin, tmax]`,
otherwise a `Numerical` error with the token's span and `Underflow` /
`Overflow` for values below / above the range. -/
lemma convert_number_eq (np : NumberParser)
    (ff : List Nat → Except NumericalErrorKind Int)
    (tmin tmax : Int) (data : List Nat) (span : Span) (sign : Sign) (nt : Notation)
    (hmin : tmin ≤ 0) (hmax : 0 ≤ tmax)
    (hnt : nt = .decimal ∨ nt = .hex ∨ nt = .octal ∨ nt = .binary)
    (hd : ∀ d ∈ tokenDigits np data span sign nt, digitOk nt d) :
    np.convert_number ff tmin tmax data span sign nt =
      if tokenValue (nt.radix : Int) sign (tokenDigits np data span sign nt) < tmin then
        .error (.numerical span .underflow)
      else if tmax < tokenValue (nt.radix : Int) sign (tokenDigits np data span sign nt) then
        .error (.numerical span .overflow)
      else .ok (tokenValue (nt.radix : Int) sign (tokenDigits np data span sign nt)) := by
  have key : ∀ (mul : Int) (dg : Nat → Int) (s : List Nat), 1 ≤ mul →
      (∀ d ∈ s, d ≠ 95 → 0 ≤ dg d ∧ dg d = byteDigitVal d) →
      (match (if sign ≠ Sign.minus then convertLoopPos tmin tmax mul dg 0 s
              else convertLoopNeg tmin tmax mul dg 0 s) with
       | .ok v => (.ok v : Except ParseErrorDetail Int)
       | .error k => .error (.numerical span k)) =
        if tokenValue mul sign s < tmin then .error (.numerical span .underflow)
        else if tmax < tokenValue mul sign s then .error (.numerical span .overflow)
        else .ok (tokenValue mul sign s) := by
    intro mul dg s hm hds
    rw [@radixParse_eq tmin tmax mul dg hm hmin hmax sign s hds]
    by_cases h1 : tokenValue mul sign s < tmin
    · simp [h1]
    · by_cases h2 : tmax < tokenValue mul sign s <;> simp [h1, h2]
  rcases hnt with h | h | h | h <;> subst h
  · have := key 10 digit_dec (tokenDigits np data span sign .decimal) (by norm_num)
      (fun d hds h95 => digit_dec_spec (by have := hd d hds; simp [digitOk] at this; omega))
    simpa [NumberParser.convert_number, KgDiag.parse_decimal, tokenDigits, Notation.radix] using this
  · have := key 16 digit_hex (tokenDigits np data span sign .hex) (by norm_num)
      (fun d hds h95 => digit_hex_spec (by have := hd d hds; simp [digitOk] at this; omega))
    simpa [NumberParser.convert_number, KgDiag.parse_hex, tokenDigits, Notation.radix] using this
  · have := key 8 digit_dec (tokenDigits np data span sign .octal) (by norm_num)
      (fun d hds h95 => digit_dec_spec (by have := hd d hds; simp [digitOk] at this; omega))
    simpa [NumberParser.convert_number, KgDiag.parse_octal, tokenDigits, Notation.radix] using this
  · have := key 2 digit_dec (tokenDigits np data span sign .binary) (by norm_num)
      (fun d hds h95 => digit_dec_spec (by have := hd d hds; simp [digitOk] at this; omega))
    simpa [NumberParser.convert_number, KgDiag.parse_binary, tokenDigits, Notation.radix] using this

end ConvertLemmas

/-! ## Claim theorems -/

/-- C1: for every number token of notation Decimal, Hex, Octal or
Binary (its digit bytes being valid digits of that notation, with
underscores), any sign, and any integer target type (bounds
`tmin ≤ 0 ≤ tmax`), `convert_number` returns exactly the mathematical
integer value the token denotes (underscores skipped, sign applied)
whenever that value lies in `[tmin, tmax]`, and a `Numerical` error of
kind `Underflow` (value below `tmin`) or `Overflow` (value above
`tmax`) otherwise.  In particular the most negative value of a signed
type converts successfully (see the witness). -/
theorem C1_convert_number_radix_exact (np : NumberParser)
    (ff : List Nat → Except NumericalErrorKind Int)
    (tmin tmax : Int) (data : List Nat) (span : Span) (sign : Sign) (nt : Notation)
    (hmin : tmin ≤ 0) (hmax : 0 ≤ tmax)
    (hnt : nt = .decimal ∨ nt = .hex ∨ nt = .octal ∨ nt = .binary)
    (hd : ∀ d ∈ tokenDigits np data span sign nt, digitOk nt d) :
    np.convert_number ff tmin tmax data span sign nt =
      if tokenValue (nt.radix : Int) sign (tokenDigits np data span sign nt) < tmin then
        .error (.numerical span .underflow)
      else if tmax < tokenValue (nt.radix : Int) sign (tokenDigits np data span sign nt) then
        .error (.numerical span .overflow)
      else .ok (tokenValue (nt.radix : Int) sign (tokenDigits np data span sign nt)) :=
  convert_number_eq np ff tmin tmax data span sign nt hmin hmax hnt hd

/-- Witness for C1: `"-2147483648"` (bytes `[45,50,...]`) converted to
`i32` (bounds `[-2^31, 2^31-1]`) succeeds with exactly `-2^31`. -/
theorem C1_convert_number_radix_exact_witness :
    ((-2147483648 : Int) ≤ 0) ∧ ((0 : Int) ≤ 2147483647) ∧
    (Notation.decimal = .decimal ∨ Notation.decimal = .hex ∨
      Notation.decimal = .octal ∨ Notation.decimal = .binary) ∧
    (∀ d ∈ tokenDigits NumberParser.new [45, 50, 49, 52, 55, 52, 56, 51, 54, 52, 56]
        ⟨⟨0, 0, 0⟩, ⟨11, 0, 11⟩⟩ .minus .decimal, digitOk .decimal d) ∧
    NumberParser.new.convert_number (fun _ => .error .invalid) (-2147483648) 2147483647
        [45, 50, 49, 52, 55, 52, 56, 51, 54, 52, 56] ⟨⟨0, 0, 0⟩, ⟨11, 0, 11⟩⟩
        .minus .decimal = .ok (-2147483648) := by
  refine ⟨by norm_num, by norm_num, Or.inl rfl, by decide, ?_⟩
  rw [C1_convert_number_radix_exact NumberParser.new (fun _ => .error .invalid)
    (-2147483648) 2147483647 [45, 50, 49, 52, 55, 52, 56, 51, 54, 52, 56]
    ⟨⟨0, 0, 0⟩, ⟨11, 0, 11⟩⟩ .minus .decimal (by norm_num) (by norm_num)
    (Or.inl rfl) (by decide)]
  rw [if_neg (by decide), if_neg (by decide)]
  have hv : tokenValue ((Notation.decimal.radix : Nat) : Int) .minus
      (tokenDigits NumberParser.new [45, 50, 49, 52, 55, 52, 56, 51, 54, 52, 56]
        ⟨⟨0, 0, 0⟩, ⟨11, 0, 11⟩⟩ .minus .decimal) = -2147483648 := by decide
  rw [hv]

/-- C7 counterexample: converting the minus-signed all-zero hex token
`"-0x0"` to `u32` (bounds `[0, 2^32-1]`) does NOT fail with `Underflow`
as the claim states: it succeeds with `0` (the reduction loop only
fails on a nonzero digit). -/
theorem C7_counterexample_minus_zero_hex_ok :
    NumberParser.new.convert_number (fun _ => .error .invalid) 0 4294967295
      [45, 48, 120, 48] ⟨⟨0, 0, 0⟩, ⟨4, 0, 4⟩⟩ .minus .hex = .ok 0 := by rfl

/-- C7 (amended): converting a minus-signed Hex, Octal or Binary token
to an unsigned target (`tmin = 0`) fails with `Numerical`/`Underflow`
exactly when the digit string has a nonzero value; an all-zero digit
string converts to `0`. -/
theorem C7_minus_to_unsigned_underflow_iff (np : NumberParser)
    (ff : List Nat → Except NumericalErrorKind Int)
    (tmax : Int) (data : List Nat) (span : Span) (nt : Notation)
    (hmax : 0 ≤ tmax)
    (hnt : nt = .hex ∨ nt = .octal ∨ nt = .binary)
    (hd : ∀ d ∈ tokenDigits np data span .minus nt, digitOk nt d) :
    np.convert_number ff 0 tmax data span .minus nt =
      if numValue (nt.radix : Int) (tokenDigits np data span .minus nt) = 0 then .ok 0
      else .error (.numerical span .underflow) := by
  have h := convert_number_eq np ff 0 tmax data span .minus nt le_rfl hmax (Or.inr hnt) hd
  rw [h]
  have hr : (1 : Int) ≤ (nt.radix : Int) := by
    rcases hnt with h' | h' | h' <;> subst h' <;> simp [Notation.radix]
  have hnn := numValue_nonneg (nt.radix : Int) (tokenDigits np data span .minus nt) hr
  have htv : tokenValue (nt.radix : Int) .minus (tokenDigits np data span .minus nt) =
      -numValue (nt.radix : Int) (tokenDigits np data span .minus nt) := by
    simp [tokenValue]
  rw [htv]
  by_cases h0 : numValue (nt.radix : Int) (tokenDigits np data span .minus nt) = 0
  · rw [if_pos h0, if_neg (by omega), if_neg (by omega), h0]
    norm_num
  · rw [if_neg h0, if_pos (by omega)]

/-- Witness for C7 (amended): `"-0x1"` to `u32` fails with
`Numerical`/`Underflow`. -/
theorem C7_minus_to_unsigned_underflow_iff_witness :
    ((0 : Int) ≤ 4294967295) ∧
    (Notation.hex = .hex ∨ Notation.hex = .octal ∨ Notation.hex = .binary) ∧
    (∀ d ∈ tokenDigits NumberParser.new [45, 48, 120, 49] ⟨⟨0, 0, 0⟩, ⟨4, 0, 4⟩⟩
        .minus .hex, digitOk .hex d) ∧
    NumberParser.new.convert_number (fun _ => .error .invalid) 0 4294967295
      [45, 48, 120, 49] ⟨⟨0, 0, 0⟩, ⟨4, 0, 4⟩⟩ .minus .hex =
        .error (.numerical ⟨⟨0, 0, 0⟩, ⟨4, 0, 4⟩⟩ .underflow) := by
  refine ⟨by norm_num, Or.inl rfl, by decide, ?_⟩
  rw [C7_minus_to_unsigned_underflow_iff NumberParser.new (fun _ => .error .invalid)
    4294967295 [45, 48, 120, 49] ⟨⟨0, 0, 0⟩, ⟨4, 0, 4⟩⟩ .hex (by norm_num)
    (Or.inl rfl) (by decide)]
  rw [if_neg (by decide)]

/-- C10: every `UnexpectedEof`, `UnexpectedInput` and `Numerical` parse
error has severity `Failure` (hence `is_recoverable = false` and
`is_error = true`) and code 40, 41, 42 respectively, and adding any of
them to a `Diags` collector returns the `Errors` sentinel rather than
success. -/
theorem C10_parse_error_severity_codes :
    ∀ (pos : Position) (exp : Option Expected) (task : String)
      (pos2 : Position) (found : Option Input) (exp2 : Option Expected) (task2 : String)
      (span : Span) (kind : NumericalErrorKind) (ds : Diags),
      (ParseErrorDetail.unexpectedEof pos exp task).severity = .failure ∧
      (ParseErrorDetail.unexpectedInput pos2 found exp2 task2).severity = .failure ∧
      (ParseErrorDetail.numerical span kind).severity = .failure ∧
      Severity.failure.is_recoverable = false ∧
      Severity.failure.is_error = true ∧
      (ParseErrorDetail.unexpectedEof pos exp task).code = 40 ∧
      (ParseErrorDetail.unexpectedInput pos2 found exp2 task2).code = 41 ∧
      (ParseErrorDetail.numerical span kind).code = 42 ∧
      (ds.add_diag (.unexpectedEof pos exp task)).2 =
        .error ⟨Severity.smax ds.max_severity .failure⟩ ∧
      (ds.add_diag (.unexpectedInput pos2 found exp2 task2)).2 =
        .error ⟨Severity.smax ds.max_severity .failure⟩ ∧
      (ds.add_diag (.numerical span kind)).2 =
        .error ⟨Severity.smax ds.max_severity .failure⟩ :=
  fun _ _ _ _ _ _ _ _ _ _ =>
    ⟨rfl, rfl, rfl, rfl, rfl, rfl, rfl, rfl, rfl, rfl, rfl⟩

/-- C2 (code bug): on the valid UTF-8 buffer `C3 A6` (`"æ"`), the first
`next_byte` returns the lead byte (without advancing the column), but
the second fails with `Utf8InvalidEncoding` instead of returning
`Ok(Some(0xA6))`: the validator's continuation-byte test is inverted
(`b >= 0xC0` accepts, `b < 0xC0` rejects), so every valid multi-byte
scalar is rejected. -/
theorem C2_next_byte_rejects_valid_utf8 :
    (MemByteReader.new [0xC3, 0xA6]).next_byte =
      .ok (some 0xC3, ⟨[0xC3, 0xA6], ⟨1, 0, 0⟩, 1⟩) ∧
    (MemByteReader.mk [0xC3, 0xA6] ⟨1, 0, 0⟩ 1).next_byte =
      .error (.utf8InvalidEncoding 2 1) ∧
    (MemByteReader.mk [0xC3, 0xA6] ⟨1, 0, 0⟩ 1).next_byte ≠ .ok (some 0xA6,
      ⟨[0xC3, 0xA6], ⟨2, 0, 1⟩, 0⟩) := by
  refine ⟨by decide, by decide, by decide⟩

/-- C3 (code bug): `consume_bom` compares against the UTF-8 encoding of
the *string* `"\u{EF}\u{BB}\u{BF}"` — the six bytes `C3 AF C2 BB C2 BF`
— so the real byte-order mark `EF BB BF` is not stripped: a reader over
`EF BB BF | "abc"` first yields the scalar U+FEFF at offset 0, not
`'a'` as a reader over `"abc"` does. -/
theorem C3_bom_not_stripped :
    consume_bom [0xEF, 0xBB, 0xBF, 97, 98, 99] = [0xEF, 0xBB, 0xBF, 97, 98, 99] ∧
    consume_bom [0xC3, 0xAF, 0xC2, 0xBB, 0xC2, 0xBF] = [] ∧
    ((MemCharReader.new [0xEF, 0xBB, 0xBF, 97, 98, 99]).next_char).map Prod.fst =
      .ok (some 0xFEFF) ∧
    ((MemCharReader.new [97, 98, 99]).next_char).map Prod.fst = .ok (some 97) ∧
    (0xFEFF : Nat) ≠ 97 := by decide

/-- C4 (code bug): the decoder's short-sequence bounds checks are off
by one (`len < i + 1` / `i + 2` / `i + 3` instead of `i + 2` / `i + 3`
/ `i + 4`), so on a truncated sequence such as the single lead byte
`C3` it dereferences index 1 of a 1-byte buffer (out of bounds —
undefined behaviour) and then reports a bogus decoded scalar instead of
an error; where the check does fire (e.g. lone `E0`) the error is
`Utf8UnexpectedEof` without any `len`, not `Utf8InvalidEncoding`. -/
theorem C4_truncated_utf8_reads_out_of_bounds :
    MemCharReader.nextAccessedIndices [0xC3] 0 = [0, 1] ∧
    List.length [0xC3] = 1 ∧
    ((MemCharReader.new [0xC3]).next_char).map Prod.fst = .ok (some 192) ∧
    MemCharReader.nextAccessedIndices [0xE0, 0x80] 0 = [0, 1, 2] ∧
    (MemCharReader.new [0xE0]).next_char = .error (.utf8UnexpectedEof 0) := by
  decide

/-- C5 counterexample: with the default configuration (underscores
allowed), recognising `"1_"` yields an accepted Decimal token covering
the trailing underscore — span `[0, 2)` — contradicting the claim that
a token ending in `'_'` is rejected. -/
theorem C5_counterexample_trailing_underscore_accepted :
    (NumberParser.new.parse_number (MemCharReader.new [49, 95])).map (fun x => x.1) =
      .ok ⟨⟨.none, .decimal⟩, ⟨⟨0, 0, 0⟩, ⟨2, 0, 2⟩⟩⟩ := by rfl

/-- C5 (amended): the recogniser rejects a digit sequence that *begins*
with `'_'` (an underscore before any digit stops the scan and the empty
digit run is an `UnexpectedInput` error, e.g. `"0x_1"`), but it accepts
consecutive underscores and trailing underscores: once one digit has
been seen, every later underscore is consumed (`"1__2"` and `"0x1_"`
are whole accepted tokens). -/
theorem C5_underscore_rules :
    NumberParser.new.parse_number (MemCharReader.new [48, 120, 95, 49]) =
      .error (.unexpectedInput ⟨2, 0, 2⟩ (some (.char 95))
        (some (.oneOf [.charRange 48 57, .charRange 65 70, .charRange 97 102]))
        "parsing a hexadecimal number literal") ∧
    (NumberParser.new.parse_number (MemCharReader.new [49, 95, 95, 50])).map (fun x => x.1) =
      .ok ⟨⟨.none, .decimal⟩, ⟨⟨0, 0, 0⟩, ⟨4, 0, 4⟩⟩⟩ ∧
    (NumberParser.new.parse_number (MemCharReader.new [48, 120, 49, 95])).map (fun x => x.1) =
      .ok ⟨⟨.none, .hex⟩, ⟨⟨0, 0, 0⟩, ⟨4, 0, 4⟩⟩⟩ :=
  ⟨rfl, rfl, rfl⟩

/-- C8 counterexample: on `"- "` the recogniser does fail with
`UnexpectedInput{found = Char(' '), task = "parsing a decimal number
literal"}`, but its `expected` is the bare range `'0'..='9'` — the
signs are only offered when no sign was consumed (`sign == None`), so
it is not the claimed `OneOf{'-','+','0'..='9'}` (no `OneOf` at all). -/
theorem C8_counterexample_expected_set :
    NumberParser.new.parse_number (MemCharReader.new [45, 32]) =
      .error (.unexpectedInput ⟨1, 0, 1⟩ (some (.char 32)) (some (.charRange 48 57))
        "parsing a decimal number literal") ∧
    ∀ es : List Expected, Expected.charRange 48 57 ≠ .oneOf es :=
  ⟨rfl, fun _ h => Expected.noConfusion h⟩

/-- C8 (amended): with the default configuration, `parse_number` on
`"- "` fails with `UnexpectedInput` at position 1 whose `found` is
`Char(' ')`, whose `expected` is `CharRange('0','9')` (the signs are
omitted because a sign was already consumed), and whose task is
`"parsing a decimal number literal"`. -/
theorem C8_minus_space_error_shape :
    NumberParser.new.parse_number (MemCharReader.new [45, 32]) =
      .error (.unexpectedInput ⟨1, 0, 1⟩ (some (.char 32)) (some (.charRange 48 57))
        "parsing a decimal number literal") := rfl

/-- C9 counterexample: on `"ab"`, read `'a'`, observe `p = position()`
(offset 0 — the position *of* the scalar just read), then
`next_char` returns `'b'` while `next_char` after `seek(p)` returns
`'a'` again: the two scalars differ, refuting the claim for positions
observed after a read. -/
theorem C9_counterexample_seek_after_read :
    (MemCharReader.new [97, 98]).next_char =
      .ok (some 97, ⟨[97, 98], ⟨0, 0, 0⟩, 97, 1⟩) ∧
    (MemCharReader.mk [97, 98] ⟨0, 0, 0⟩ 97 1).next_char =
      .ok (some 98, ⟨[97, 98], ⟨1, 0, 1⟩, 98, 1⟩) ∧
    ((MemCharReader.mk [97, 98] ⟨1, 0, 1⟩ 98 1).seek ⟨0, 0, 0⟩).next_char =
      .ok (some 97, ⟨[97, 98], ⟨0, 0, 0⟩, 97, 1⟩) ∧
    some (98 : Nat) ≠ some 97 := by decide

/-! ## Reader stepping lemmas -/

namespace MemCharReader

lemma advance_len0 (data : List Nat) (p : Position) (c : Nat) :
    advance ⟨data, p, c, 0⟩ = ⟨data, p, c, 0⟩ := by
  simp [advance]

lemma next_data (r r' : MemCharReader) (h : r.next = .ok r') : r'.data = r.data := by
  simp only [next] at h
  split_ifs at h
  all_goals simp only [Except.ok.injEq] at h
  all_goals subst h
  all_goals (unfold advance; split_ifs <;> rfl)

lemma next_char_data (r : MemCharReader) (v : Option Nat) (r' : MemCharReader)
    (h : r.next_char = .ok (v, r')) : r'.data = r.data := by
  unfold next_char at h
  split at h
  · simp at h
  next r2 hnext =>
    split_ifs at h <;>
      · simp only [Except.ok.injEq, Prod.mk.injEq] at h
        obtain ⟨-, hr⟩ := h
        subst hr
        exact next_data r r2 hnext

lemma next_char_len0_eof (data : List Nat) (p : Position) (c : Nat)
    (he : p.offset = data.length) :
    next_char ⟨data, p, c, 0⟩ = .ok (none, ⟨data, p, c, 0⟩) := by
  simp [next_char, next, advance, he]

/-- With no cached scalar and decoding not at end of input, `next_char`
does not depend on the stale `c` field: every decode branch overwrites
it. -/
lemma next_char_len0_congr (data : List Nat) (p : Position) (c c' : Nat)
    (hne : p.offset ≠ data.length) :
    next_char ⟨data, p, c, 0⟩ = next_char ⟨data, p, c', 0⟩ := by
  have hkey : next (⟨data, p, c, 0⟩ : MemCharReader) = next ⟨data, p, c', 0⟩ := by
    unfold next
    rw [advance_len0, advance_len0]
    rw [if_neg hne, if_neg hne]
  unfold next_char
  rw [hkey]

end MemCharReader

namespace MemCharReader

lemma advance_len1 (data : List Nat) (o l col c : Nat) (hc : c ≠ 10) :
    advance ⟨data, ⟨o, l, col⟩, c, 1⟩ = ⟨data, ⟨o + 1, l, col + 1⟩, c, 0⟩ := by
  simp [advance, Position.inc_column, hc]

lemma next_char_ascii (data : List Nat) (o l col c : Nat)
    (hlt : o < data.length) (hb : data.getD o 0 < 128) :
    next_char ⟨data, ⟨o, l, col⟩, c, 0⟩ =
      .ok (some (data.getD o 0), ⟨data, ⟨o, l, col⟩, data.getD o 0, 1⟩) := by
  have hne : ¬(o = data.length) := by omega
  have hb' := hb
  rw [List.getD_eq_getElem?_getD] at hb'
  simp [next_char, next, advance, hne, hb']

lemma next_char_len1_step (data : List Nat) (o l col c : Nat) (hc : c ≠ 10) :
    next_char ⟨data, ⟨o, l, col⟩, c, 1⟩ = next_char ⟨data, ⟨o + 1, l, col + 1⟩, c, 0⟩ := by
  have hkey : next (⟨data, ⟨o, l, col⟩, c, 1⟩ : MemCharReader) =
      next ⟨data, ⟨o + 1, l, col + 1⟩, c, 0⟩ := by
    unfold next
    rw [advance_len1 data o l col c hc, advance_len0]
  unfold next_char
  rw [hkey]

lemma peek_char0_len1 (data : List Nat) (p : Position) (c : Nat) :
    peek_char0 ⟨data, p, c, 1⟩ = .ok (some c, ⟨data, p, c, 1⟩) := by
  simp [peek_char0]

lemma peek_char0_len0 (data : List Nat) (p : Position) (c : Nat) :
    peek_char0 ⟨data, p, c, 0⟩ = next_char ⟨data, p, c, 0⟩ := by
  simp [peek_char0]

lemma match_str_pair_false (d0 e : Nat) (rest : List Nat) (l col c a b : Nat)
    (hne : e ≠ b) :
    match_str ⟨d0 :: e :: rest, ⟨0, l, col⟩, c, 1⟩ [a, b] = false := by
  simp [match_str, hne]

end MemCharReader

/-- C9 (amended): when the reader holds no cached scalar (`len = 0`,
e.g. freshly constructed or immediately after a `seek`) and `p` is its
position, the sequence `next_char; seek(p); next_char` returns the same
scalar twice: `seek` resets the cached decoding state, so the second
call re-decodes the very scalar at `p.offset` that the first call
returned.  (When `p` is observed mid-stream — after a read, with a
scalar cached — the first call instead returns the *following* scalar
and the two calls differ: see the counterexample.) -/
theorem C9_seek_reread (r : MemCharReader) (v : Option Nat) (r1 : MemCharReader)
    (hlen : r.len = 0) (h1 : r.next_char = .ok (v, r1)) :
    ∃ r2, (r1.seek r.pos).next_char = .ok (v, r2) := by
  obtain ⟨data, p, c, len⟩ := r
  simp only at hlen
  subst hlen
  have hdata : r1.data = data := MemCharReader.next_char_data _ _ _ h1
  have hseek : r1.seek p = (⟨data, p, 0, 0⟩ : MemCharReader) := by
    obtain ⟨d1, p1, c1, l1⟩ := r1
    simp only at hdata
    simp [MemCharReader.seek, hdata]
  by_cases he : p.offset = data.length
  · rw [MemCharReader.next_char_len0_eof data p c he] at h1
    simp only [Except.ok.injEq, Prod.mk.injEq] at h1
    obtain ⟨hv, -⟩ := h1
    refine ⟨⟨data, p, 0, 0⟩, ?_⟩
    rw [hseek, MemCharReader.next_char_len0_eof data p 0 he, ← hv]
  · rw [hseek, ← MemCharReader.next_char_len0_congr data p c 0 he]
    exact ⟨r1, h1⟩

/-! ## The decimal scan on `digits ++ \"..\"` (for C6) -/

section DotRetraction

/-- Scanning from the first dot (digits already consumed, `last = '0'`):
the dot is consumed (`last := '.'`), the second dot stops the scan. -/
lemma decScan_dot (data : List Nat) (n fuel : Nat)
    (hlen : data.length = n + 2)
    (hdot2 : data.getD (n + 1) 0 = 46) :
    decScan DecimalConfig.new (fuel + 2) ⟨data, ⟨n, 0, n⟩, 46, 1⟩ (some .decimal) 48 =
      .ok (⟨data, ⟨n + 1, 0, n + 1⟩, 46, 1⟩, some .decimal, 46) := by
  have hnext : MemCharReader.next_char (⟨data, ⟨n, 0, n⟩, 46, 1⟩ : MemCharReader) =
      .ok (some 46, ⟨data, ⟨n + 1, 0, n + 1⟩, 46, 1⟩) := by
    rw [MemCharReader.next_char_len1_step data n 0 n 46 (by omega)]
    have h := MemCharReader.next_char_ascii data (n + 1) 0 (n + 1) 46 (by omega)
      (by rw [hdot2]; omega)
    rw [hdot2] at h
    exact h
  have hf : fuel + 2 = (fuel + 1) + 1 := by omega
  rw [hf]
  simp only [decScan, MemCharReader.peek_char0_len1, hnext]
  simp [DecimalConfig.new, DecimalConfig.is_digit]

/-- Scanning the remaining digits `k, k+1, …, n-1` and then the dot. -/
lemma decScan_digits (data : List Nat) (n : Nat)
    (hlen : data.length = n + 2)
    (hdotn : data.getD n 0 = 46)
    (hdot2 : data.getD (n + 1) 0 = 46)
    (hdig : ∀ i, i < n → 48 ≤ data.getD i 0 ∧ data.getD i 0 ≤ 57) :
    ∀ (j k fuel : Nat), k + j = n →
      decScan DecimalConfig.new (j + (fuel + 2))
          ⟨data, ⟨k, 0, k⟩, data.getD k 0, 1⟩ (some .decimal) 48 =
        .ok (⟨data, ⟨n + 1, 0, n + 1⟩, 46, 1⟩, some .decimal, 46) := by
  intro j
  induction j with
  | zero =>
    intro k fuel hk
    have hkn : k = n := by omega
    subst hkn
    rw [show (0 : Nat) + (fuel + 2) = fuel + 2 by omega]
    rw [show data.getD k 0 = 46 from hdotn]
    exact decScan_dot data k fuel hlen hdot2
  | succ j ih =>
    intro k fuel hk
    have hkn : k < n := by omega
    obtain ⟨hd1, hd2⟩ := hdig k hkn
    have hb1 : data.getD (k + 1) 0 < 128 := by
      by_cases h : k + 1 < n
      · have := (hdig (k + 1) h).2; omega
      · have hke : k + 1 = n := by omega
        rw [hke, hdotn]; omega
    have hnext : MemCharReader.next_char
        (⟨data, ⟨k, 0, k⟩, data.getD k 0, 1⟩ : MemCharReader) =
        .ok (some (data.getD (k + 1) 0), ⟨data, ⟨k + 1, 0, k + 1⟩, data.getD (k + 1) 0, 1⟩) := by
      rw [MemCharReader.next_char_len1_step data k 0 k _ (by omega)]
      exact MemCharReader.next_char_ascii data (k + 1) 0 (k + 1) _ (by omega) hb1
    have hdgt : DecimalConfig.new.is_digit (data.getD k 0) = true := by
      unfold DecimalConfig.is_digit
      exact decide_eq_true ⟨hd1, hd2⟩
    have hstep := ih (k + 1) fuel (by omega)
    obtain ⟨m, hm⟩ : ∃ m, j + (fuel + 2) = m := ⟨_, rfl⟩
    rw [hm] at hstep
    rw [show j + 1 + (fuel + 2) = m + 1 by omega]
    simp only [decScan, MemCharReader.peek_char0_len1]
    rw [hdgt, hnext]
    exact hstep

/-- The whole scan from the first digit (fresh `nota`/`last`). -/
lemma decScan_entry (data : List Nat) (n : Nat)
    (hn : 1 ≤ n)
    (hlen : data.length = n + 2)
    (hdotn : data.getD n 0 = 46)
    (hdot2 : data.getD (n + 1) 0 = 46)
    (hdig : ∀ i, i < n → 48 ≤ data.getD i 0 ∧ data.getD i 0 ≤ 57) :
    decScan DecimalConfig.new (n + 3) ⟨data, ⟨0, 0, 0⟩, data.getD 0 0, 1⟩
        (none : Option Notation) 32 =
      .ok (⟨data, ⟨n + 1, 0, n + 1⟩, 46, 1⟩, some .decimal, 46) := by
  obtain ⟨hd1, hd2⟩ := hdig 0 hn
  have hb1 : data.getD 1 0 < 128 := by
    by_cases h : 1 < n
    · have := (hdig 1 h).2; omega
    · have hke : 1 = n := by omega
      rw [hke, hdotn]; omega
  have hnext : MemCharReader.next_char
      (⟨data, ⟨0, 0, 0⟩, data.getD 0 0, 1⟩ : MemCharReader) =
      .ok (some (data.getD 1 0), ⟨data, ⟨1, 0, 1⟩, data.getD 1 0, 1⟩) := by
    rw [MemCharReader.next_char_len1_step data 0 0 0 _ (by omega)]
    exact MemCharReader.next_char_ascii data 1 0 1 _ (by omega) hb1
  have hdgt : DecimalConfig.new.is_digit (data.getD 0 0) = true := by
    unfold DecimalConfig.is_digit
    exact decide_eq_true ⟨hd1, hd2⟩
  have hstep := decScan_digits data n hlen hdotn hdot2 hdig (n - 1) 1 1 (by omega)
  obtain ⟨m, hm⟩ : ∃ m, (n - 1) + (1 + 2) = m := ⟨_, rfl⟩
  rw [hm] at hstep
  rw [show n + 3 = m + 1 by omega]
  simp only [decScan, MemCharReader.peek_char0_len1]
  rw [hdgt, hnext]
  exact hstep

lemma consume_bom_head_ne (input : List Nat) (h : input.getD 0 0 ≠ 0xC3) :
    consume_bom input = input := by
  unfold consume_bom
  split_ifs with h1 h2
  · exfalso
    apply h
    have h3 := congrArg (fun l => l.getD 0 0) h2
    simpa [List.getD_eq_getElem?_getD, List.getElem?_take] using h3
  · rfl
  · rfl

/-- Default `is_at_start` when the current scalar is not a permitted
sign and the notation has a (nonempty) prefix: it answers by
`match_str` and the reader is untouched. -/
lemma is_at_start_pfx_of_nonsign (v : NotationConfigV) (r1 : MemCharReader) (c : Nat)
    (hen : v.is_enabled = true) (hpfx : v.pfx.isEmpty = false)
    (hpk : r1.peek_char0 = .ok (some c, r1)) (h45 : c ≠ 45) (h43 : c ≠ 43) :
    v.is_at_start r1 = .ok (r1.match_str v.pfx, r1) := by
  unfold NotationConfigV.is_at_start is_at_prefix_or_digit
  simp [hen, hpk, hpfx, decide_eq_false h45, decide_eq_false h43]

/-- `DecimalConfig::is_at_start` on a digit scalar answers true without
touching the reader. -/
lemma decimal_is_at_start_digit (r1 : MemCharReader) (c : Nat)
    (hpk : r1.peek_char0 = .ok (some c, r1)) (h45 : c ≠ 45) (h43 : c ≠ 43)
    (hdg : DecimalConfig.new.is_digit c = true) :
    DecimalConfig.new.is_at_start r1 = .ok (true, r1) := by
  unfold DecimalConfig.is_at_start
  have hen : DecimalConfig.new.enabled = true := rfl
  simp [hen, hpk, decide_eq_false h45, decide_eq_false h43, hdg]

end DotRetraction

/-- Witness for C9 (amended): a fresh reader over `"ab"` has `len = 0`;
both `next_char` calls around `seek(position())` return `'a'`. -/
theorem C9_seek_reread_witness :
    (MemCharReader.new [97, 98]).len = 0 ∧
    (MemCharReader.new [97, 98]).next_char =
      .ok (some 97, ⟨[97, 98], ⟨0, 0, 0⟩, 97, 1⟩) ∧
    ∃ r2, ((⟨[97, 98], ⟨0, 0, 0⟩, 97, 1⟩ : MemCharReader).seek
        (MemCharReader.new [97, 98]).pos).next_char = .ok (some 97, r2) :=
  ⟨rfl, by decide,
    C9_seek_reread (MemCharReader.new [97, 98]) (some 97)
      ⟨[97, 98], ⟨0, 0, 0⟩, 97, 1⟩ rfl (by decide)⟩

/-- C6: with the default configuration, recognising one or more decimal digits
followed by two dots yields a token with sign None and notation Decimal whose
span ends at the offset of the first dot (the trailing dot having been
retracted from both offset and column), and the reader is left so that the
next peek_char(0) returns the dot ('.', byte 46). -/
theorem C6_decimal_dot_retraction (ds : List Nat) (hne : ds ≠ [])
    (hdig : ∀ d ∈ ds, 48 ≤ d ∧ d ≤ 57) :
    NumberParser.new.parse_number (MemCharReader.new (ds ++ [46, 46])) =
      .ok (⟨⟨.none, .decimal⟩, ⟨⟨0, 0, 0⟩, ⟨ds.length, 0, ds.length⟩⟩⟩,
        ⟨ds ++ [46, 46], ⟨ds.length, 0, ds.length⟩, 0, 0⟩) ∧
    MemCharReader.peek_char0 ⟨ds ++ [46, 46], ⟨ds.length, 0, ds.length⟩, 0, 0⟩ =
      .ok (some 46, ⟨ds ++ [46, 46], ⟨ds.length, 0, ds.length⟩, 46, 1⟩) := by
  have hn : 1 ≤ ds.length := List.length_pos.mpr hne
  have hlen : (ds ++ [46, 46]).length = ds.length + 2 := by simp
  have hdig' : ∀ i, i < ds.length →
      48 ≤ (ds ++ [46, 46]).getD i 0 ∧ (ds ++ [46, 46]).getD i 0 ≤ 57 := by
    intro i hi
    rw [List.getD_append _ _ _ _ hi]
    refine hdig _ ?_
    rw [List.getD_eq_getElem _ _ hi]
    exact List.getElem_mem _
  have hdotn : (ds ++ [46, 46]).getD ds.length 0 = 46 := by
    rw [List.getD_append_right _ _ _ _ le_rfl]
    simp
  have hdot2 : (ds ++ [46, 46]).getD (ds.length + 1) 0 = 46 := by
    rw [List.getD_append_right _ _ _ _ (by omega)]
    rw [show ds.length + 1 - ds.length = 1 by omega]
    rfl
  obtain ⟨hd00, hd01⟩ := hdig' 0 hn
  have hbom : consume_bom (ds ++ [46, 46]) = ds ++ [46, 46] :=
    consume_bom_head_ne _ (by omega)
  have hr0 : MemCharReader.new (ds ++ [46, 46]) =
      ⟨ds ++ [46, 46], ⟨0, 0, 0⟩, 0, 0⟩ := by
    unfold MemCharReader.new
    rw [hbom]
    rfl
  have hpeek0 : MemCharReader.peek_char0 ⟨ds ++ [46, 46], ⟨0, 0, 0⟩, 0, 0⟩ =
      .ok (some ((ds ++ [46, 46]).getD 0 0),
        ⟨ds ++ [46, 46], ⟨0, 0, 0⟩, (ds ++ [46, 46]).getD 0 0, 1⟩) := by
    rw [MemCharReader.peek_char0_len0]
    exact MemCharReader.next_char_ascii _ 0 0 0 0 (by omega) (by omega)
  have h45 : (ds ++ [46, 46]).getD 0 0 ≠ 45 := by omega
  have h43 : (ds ++ [46, 46]).getD 0 0 ≠ 43 := by omega
  have hpk1 : MemCharReader.peek_char0
      ⟨ds ++ [46, 46], ⟨0, 0, 0⟩, (ds ++ [46, 46]).getD 0 0, 1⟩ =
      .ok (some ((ds ++ [46, 46]).getD 0 0),
        ⟨ds ++ [46, 46], ⟨0, 0, 0⟩, (ds ++ [46, 46]).getD 0 0, 1⟩) :=
    MemCharReader.peek_char0_len1 _ _ _
  have hmsfalse : ∀ a b : Nat, 58 ≤ b →
      MemCharReader.match_str
        ⟨ds ++ [46, 46], ⟨0, 0, 0⟩, (ds ++ [46, 46]).getD 0 0, 1⟩ [a, b] = false := by
    intro a b hb
    cases ds with
    | nil => exact absurd rfl hne
    | cons d0 ds' =>
      cases ds' with
      | nil => exact MemCharReader.match_str_pair_false d0 46 [46] 0 0 _ a b (by omega)
      | cons d1 t =>
        have hd1 := hdig d1 (List.mem_cons_of_mem _ (List.mem_cons_self _ _))
        exact MemCharReader.match_str_pair_false d0 d1 (t ++ [46, 46]) 0 0 _ a b (by omega)
  have hhex : NumberParser.new.hex.vtable.is_at_start
      ⟨ds ++ [46, 46], ⟨0, 0, 0⟩, (ds ++ [46, 46]).getD 0 0, 1⟩ =
      .ok (false, ⟨ds ++ [46, 46], ⟨0, 0, 0⟩, (ds ++ [46, 46]).getD 0 0, 1⟩) := by
    show HexConfig.new.vtable.is_at_start _ = _
    rw [is_at_start_pfx_of_nonsign HexConfig.new.vtable _ _ rfl rfl hpk1 h45 h43]
    rw [show HexConfig.new.vtable.pfx = [48, 120] from rfl]
    rw [hmsfalse 48 120 (by omega)]
  have hoct : NumberParser.new.octal.vtable.is_at_start
      ⟨ds ++ [46, 46], ⟨0, 0, 0⟩, (ds ++ [46, 46]).getD 0 0, 1⟩ =
      .ok (false, ⟨ds ++ [46, 46], ⟨0, 0, 0⟩, (ds ++ [46, 46]).getD 0 0, 1⟩) := by
    show OctalConfig.new.vtable.is_at_start _ = _
    rw [is_at_start_pfx_of_nonsign OctalConfig.new.vtable _ _ rfl rfl hpk1 h45 h43]
    rw [show OctalConfig.new.vtable.pfx = [48, 111] from rfl]
    rw [hmsfalse 48 111 (by omega)]
  have hbin : NumberParser.new.binary.vtable.is_at_start
      ⟨ds ++ [46, 46], ⟨0, 0, 0⟩, (ds ++ [46, 46]).getD 0 0, 1⟩ =
      .ok (false, ⟨ds ++ [46, 46], ⟨0, 0, 0⟩, (ds ++ [46, 46]).getD 0 0, 1⟩) := by
    show BinaryConfig.new.vtable.is_at_start _ = _
    rw [is_at_start_pfx_of_nonsign BinaryConfig.new.vtable _ _ rfl rfl hpk1 h45 h43]
    rw [show BinaryConfig.new.vtable.pfx = [48, 98] from rfl]
    rw [hmsfalse 48 98 (by omega)]
  have hdec : NumberParser.new.decimal.is_at_start
      ⟨ds ++ [46, 46], ⟨0, 0, 0⟩, (ds ++ [46, 46]).getD 0 0, 1⟩ =
      .ok (true, ⟨ds ++ [46, 46], ⟨0, 0, 0⟩, (ds ++ [46, 46]).getD 0 0, 1⟩) :=
    decimal_is_at_start_digit _ _ hpk1 h45 h43
      (by unfold DecimalConfig.is_digit; exact decide_eq_true ⟨hd00, hd01⟩)
  have hentry := decScan_entry (ds ++ [46, 46]) ds.length hn hlen hdotn hdot2 hdig'
  have hpd : NumberParser.new.parse_decimal Sign.none
      ⟨ds ++ [46, 46], ⟨0, 0, 0⟩, (ds ++ [46, 46]).getD 0 0, 1⟩ =
      .ok (⟨⟨.none, .decimal⟩, ⟨⟨0, 0, 0⟩, ⟨ds.length, 0, ds.length⟩⟩⟩,
        ⟨ds ++ [46, 46], ⟨ds.length, 0, ds.length⟩, 0, 0⟩) := by
    simp only [NumberParser.parse_decimal]
    rw [if_pos (Or.inl trivial)]
    rw [if_neg (fun h => h rfl)]
    have hentry' : (match (Except.ok (⟨ds ++ [46, 46], ⟨0, 0, 0⟩,
          (ds ++ [46, 46]).getD 0 0, 1⟩ : MemCharReader) :
            Except IoErrorDetail MemCharReader) with
        | .error e => .error e
        | .ok r => decScan NumberParser.new.decimal (r.data.length + 1) r none 32) =
        Except.ok (⟨ds ++ [46, 46], ⟨ds.length + 1, 0, ds.length + 1⟩, 46, 1⟩,
          some Notation.decimal, (46 : Nat)) := by
      have h2 := hentry
      rw [show ds.length + 3 = (ds ++ [46, 46]).length + 1 by rw [hlen]] at h2
      exact h2
    rw [hentry']
    rfl
  refine ⟨?_, ?_⟩
  · rw [hr0]
    simp only [NumberParser.parse_number, hpeek0, hhex, hoct, hbin, hdec, h45, h43, hpd,
      Bool.false_eq_true, if_false, if_true]
  · rw [MemCharReader.peek_char0_len0]
    have h := MemCharReader.next_char_ascii (ds ++ [46, 46]) ds.length 0 ds.length 0
      (by rw [hlen]; omega) (by rw [hdotn]; omega)
    rw [hdotn] at h
    exact h

/-- Witness for C6 at the concrete input "123456..". -/
theorem C6_decimal_dot_retraction_witness :
    NumberParser.new.parse_number (MemCharReader.new [49, 50, 51, 52, 53, 54, 46, 46]) =
      .ok (⟨⟨.none, .decimal⟩, ⟨⟨0, 0, 0⟩, ⟨6, 0, 6⟩⟩⟩,
        ⟨[49, 50, 51, 52, 53, 54, 46, 46], ⟨6, 0, 6⟩, 0, 0⟩) ∧
    MemCharReader.peek_char0 ⟨[49, 50, 51, 52, 53, 54, 46, 46], ⟨6, 0, 6⟩, 0, 0⟩ =
      .ok (some 46, ⟨[49, 50, 51, 52, 53, 54, 46, 46], ⟨6, 0, 6⟩, 46, 1⟩) :=
  C6_decimal_dot_retraction [49, 50, 51, 52, 53, 54] (by decide) (by decide)

end KgDiag
